/-
Verification of the EMAV (Experimental Modal Analysis Viewer) core against
its natural-language specification.

The development shallowly embeds the core of `emav_app.py`:
  * the dataset-151 block filter of the pyuff fallback path
    (`load_reconstructed_files`, lines 322-343),
  * the custom parser `_parse_reconstructed_unv` (lines 703-832),
  * the grid alignment `_interpolate_to_common_grid` (lines 921-928),
  * the validation metrics engine `_compute_all_metrics`
    and its caller `calculate_validation_metrics` (lines 844-998).

Numeric values are modelled by `ℚ` (exact arithmetic in place of IEEE
doubles).  The floating-point square root used for complex magnitudes and
RMSE is abstracted as an explicit function parameter `sq : ℚ → ℚ`; all
theorems hold for every choice of `sq`.  Library primitives used by the
source (numpy `linspace`/`arange`/`argmin`, scipy `interp1d`/`find_peaks`,
sklearn `r2_score`, Python `float`/`int`/`str.strip`/`str.split`) are
modelled from their documented semantics, restricted to finite decimal
inputs (no `inf`/`nan`/underscore literals).
-/
import Mathlib

set_option maxHeartbeats 1000000

deriving instance DecidableEq for Except

namespace EMAV

/-! ## Models of the Python string primitives -/

/-- Model of Python `str.strip()` (with no argument): remove leading and
trailing whitespace.  Implemented on the character list so that it reduces
inside the kernel. -/
def pyStrip (s : String) : String :=
  ⟨((s.data.dropWhile Char.isWhitespace).reverse.dropWhile Char.isWhitespace).reverse⟩

/-- Model of Python `c in s` for a single character. -/
def pyContains (s : String) (c : Char) : Bool :=
  s.data.any (fun x => x == c)

/-- Helper for `pySplit`: split a character list on whitespace runs,
accumulating the current (reversed) word. -/
def splitWsAux : List Char → List Char → List (List Char)
  | [], acc => if acc.isEmpty then [] else [acc.reverse]
  | c :: cs, acc =>
    if c.isWhitespace then
      if acc.isEmpty then splitWsAux cs [] else acc.reverse :: splitWsAux cs []
    else splitWsAux cs (c :: acc)

/-- Model of Python `str.split()` (with no argument): split on runs of
whitespace, returning no empty tokens. -/
def pySplit (s : String) : List String :=
  (splitWsAux s.data []).map (fun l => ⟨l⟩)

/-! ## Fallback adapter: stripping dataset-151 blocks

`load_reconstructed_files` (lines 322-343): when the custom parser fails,
the raw lines are filtered before being handed to pyuff.  A line whose
stripped text is `"151"`, immediately preceded (in the original line list)
by a line whose stripped text is `"-1"`, opens a block; the scan then skips
forward to the next `"-1"` sentinel line, and the trailing `i += 1` of the
Python loop also consumes that sentinel line. -/

/-- The two states of the filter loop: copying lines to the output, or
skipping the inside of a dataset-151 block. -/
inductive StripMode where
  | copy
  | skip
deriving DecidableEq

/-- One-pass structural form of the filter loop of
`load_reconstructed_files` (lines 325-337).  `prev` is the previous line
of the original list (`lines[i-1]` in the source), `none` at the start. -/
def stripGo (mode : StripMode) (prev : Option String) : List String → List String
  | [] => []
  | l :: rest =>
    match mode with
    | .skip =>
      if pyStrip l = "-1" then stripGo .copy (some l) rest
      else stripGo .skip (some l) rest
    | .copy =>
      if pyStrip l = "151" ∧ prev.map pyStrip = some "-1" then
        stripGo .skip (some l) rest
      else l :: stripGo .copy (some l) rest

/-- The fallback filter applied to the raw line list (the `output_lines`
computation of `load_reconstructed_files`). -/
def stripBlocks (lines : List String) : List String := stripGo .copy none lines

/-- Spec-side variant of the filter, following the specification text of
§4.2 word for word: the lines of a 151-block are discarded *exclusive* of
the closing `"-1"` sentinel ("the closing sentinel line itself is kept
since it also opens the next block"), i.e. the closing sentinel is handed
back to the copying state.  Used to compare the specified behaviour with
the implemented one. -/
def stripSpecGo (mode : StripMode) (prev : Option String) : List String → List String
  | [] => []
  | l :: rest =>
    match mode with
    | .skip =>
      if pyStrip l = "-1" then l :: stripSpecGo .copy (some l) rest
      else stripSpecGo .skip (some l) rest
    | .copy =>
      if pyStrip l = "151" ∧ prev.map pyStrip = some "-1" then
        stripSpecGo .skip (some l) rest
      else l :: stripSpecGo .copy (some l) rest

/-- Spec-side filter entry point (closing sentinels kept). -/
def stripBlocksSpec (lines : List String) : List String := stripSpecGo .copy none lines

/-- Index of the first line at or after `i` whose stripped text is `"-1"`;
`lines.length` when there is none.  Mirrors the inner skip loop of the
fallback filter. -/
def findSentinel (lines : List String) (i : ℕ) : ℕ :=
  if h : i < lines.length then
    if pyStrip (lines.getD i "") = "-1" then i else findSentinel lines (i + 1)
  else i
termination_by lines.length - i
decreasing_by simp_wf; omega

theorem le_findSentinel (lines : List String) (i : ℕ) : i ≤ findSentinel lines i := by
  unfold findSentinel
  split
  · split
    · exact le_refl i
    · exact le_trans (Nat.le_succ i) (le_findSentinel lines (i + 1))
  · exact le_refl i
termination_by lines.length - i
decreasing_by simp_wf; omega

theorem findSentinel_min (lines : List String) (i : ℕ) :
    ∀ j, i ≤ j → j < findSentinel lines i → pyStrip (lines.getD j "") ≠ "-1" := by
  intro j hij hj
  unfold findSentinel at hj
  split at hj
  · split at hj
    · omega
    · rcases Nat.eq_or_lt_of_le hij with h | h
      · subst h; simp_all
      · exact findSentinel_min lines (i + 1) j h hj
  · omega
termination_by lines.length - i
decreasing_by simp_wf; omega

theorem findSentinel_le_length (lines : List String) (i : ℕ) (h : i ≤ lines.length) :
    findSentinel lines i ≤ lines.length := by
  unfold findSentinel
  split
  · split
    · omega
    · exact findSentinel_le_length lines (i + 1) (by omega)
  · exact h
termination_by lines.length - i
decreasing_by simp_wf; omega

theorem findSentinel_step (lines : List String) (i : ℕ) :
    findSentinel lines i =
      if i < lines.length then
        if pyStrip (lines.getD i "") = "-1" then i else findSentinel lines (i + 1)
      else i := by
  conv_lhs => unfold findSentinel
  simp

theorem findSentinel_spec (lines : List String) (i : ℕ)
    (h : findSentinel lines i < lines.length) :
    pyStrip (lines.getD (findSentinel lines i) "") = "-1" := by
  by_cases h1 : i < lines.length
  · by_cases h2 : pyStrip (lines.getD i "") = "-1"
    · have he : findSentinel lines i = i := by
        rw [findSentinel_step, if_pos h1, if_pos h2]
      rw [he]; exact h2
    · have he : findSentinel lines i = findSentinel lines (i + 1) := by
        rw [findSentinel_step, if_pos h1, if_neg h2]
      rw [he] at h ⊢
      exact findSentinel_spec lines (i + 1) h
  · have he : findSentinel lines i = i := by
      rw [findSentinel_step, if_neg h1]
    rw [he] at h
    exact absurd h h1
termination_by lines.length - i
decreasing_by simp_wf; omega

/-- Index-level restatement of the filter loop, used as a proof
intermediary between `stripBlocks` and its declarative description. -/
def stripAuxIdx (lines : List String) (i : ℕ) : List String :=
  if h : i < lines.length then
    if pyStrip (lines.getD i "") = "151" ∧ 0 < i ∧ pyStrip (lines.getD (i - 1) "") = "-1" then
      stripAuxIdx lines (findSentinel lines (i + 1) + 1)
    else
      lines.getD i "" :: stripAuxIdx lines (i + 1)
  else []
termination_by lines.length - i
decreasing_by
  · simp_wf
    have := le_findSentinel lines (i + 1)
    omega
  · simp_wf; omega

/-- The previous original line seen from position `i`. -/
def prevOption (lines : List String) (i : ℕ) : Option String :=
  if i = 0 then none else some (lines.getD (i - 1) "")

/-- A position `m` that opens a dataset-151 block: a `"151"` line
immediately preceded by a `"-1"` sentinel line. -/
def IsBlockHead (lines : List String) (m : ℕ) : Prop :=
  0 < m ∧ m < lines.length ∧ pyStrip (lines.getD m "") = "151" ∧
    pyStrip (lines.getD (m - 1) "") = "-1"

instance (lines : List String) (m : ℕ) : Decidable (IsBlockHead lines m) := by
  unfold IsBlockHead; infer_instance

/-- Index `k` falls inside a stripped block: some block head at `m ≤ k`
covers it, up to and including the closing sentinel of that block. -/
def Removed (lines : List String) (k : ℕ) : Prop :=
  ∃ m ≤ k, IsBlockHead lines m ∧ k ≤ findSentinel lines (m + 1)

/-- Boolean form of `Removed`, used inside list filters. -/
def removedB (lines : List String) (k : ℕ) : Bool :=
  (List.range (k + 1)).any
    (fun m => decide (IsBlockHead lines m) && decide (k ≤ findSentinel lines (m + 1)))

theorem removedB_iff (lines : List String) (k : ℕ) :
    removedB lines k = true ↔ Removed lines k := by
  simp only [removedB, List.any_eq_true, List.mem_range, Nat.lt_succ_iff,
    Bool.and_eq_true, decide_eq_true_eq, Removed]

theorem removedB_eq_false (lines : List String) (k : ℕ) :
    removedB lines k = false ↔ ¬ Removed lines k := by
  rw [← removedB_iff]
  simp

/-- Declarative description of the amended fallback filter: keep, in
order, exactly the lines whose index is not covered by a dataset-151
block (the block's opening marker through its closing sentinel,
inclusive). -/
def stripBlocksAmended (lines : List String) : List String :=
  ((List.range lines.length).filter (fun k => ! removedB lines k)).map
    (fun k => lines.getD k "")

/-- `stripBlocksAmended` restricted to indices at or after `i`. -/
def amendedFrom (lines : List String) (i : ℕ) : List String :=
  ((List.range' i (lines.length - i)).filter (fun k => ! removedB lines k)).map
    (fun k => lines.getD k "")

theorem amendedFrom_nil (lines : List String) (i : ℕ) (h : lines.length ≤ i) :
    amendedFrom lines i = [] := by
  rw [amendedFrom, Nat.sub_eq_zero_of_le h]
  rfl

theorem amendedFrom_step (lines : List String) (i : ℕ) (hi : i < lines.length) :
    amendedFrom lines i =
      (if removedB lines i then [] else [lines.getD i ""]) ++ amendedFrom lines (i + 1) := by
  have h1 : lines.length - i = (lines.length - (i + 1)) + 1 := by omega
  rw [amendedFrom, h1, List.range'_succ, List.filter_cons]
  cases hrem : removedB lines i
  · rw [amendedFrom]
    simp [hrem]
  · rw [amendedFrom]
    simp [hrem]

theorem amendedFrom_skip (lines : List String) :
    ∀ (d i : ℕ), (∀ k, i ≤ k → k < i + d → Removed lines k) →
      amendedFrom lines i = amendedFrom lines (i + d)
  | 0, i, _ => by rfl
  | d + 1, i, h => by
    have h1 : amendedFrom lines i = amendedFrom lines (i + 1) := by
      by_cases hl : i < lines.length
      · rw [amendedFrom_step lines i hl]
        have hr : removedB lines i = true := (removedB_iff lines i).mpr (h i le_rfl (by omega))
        rw [hr, if_pos rfl, List.nil_append]
      · rw [amendedFrom_nil lines i (by omega), amendedFrom_nil lines (i + 1) (by omega)]
    have h2 := amendedFrom_skip lines d (i + 1) (fun k hk1 hk2 => h k (by omega) (by omega))
    rw [h1, h2]
    congr 1
    omega

theorem stripAuxIdx_step (lines : List String) (i : ℕ) :
    stripAuxIdx lines i =
      if i < lines.length then
        if pyStrip (lines.getD i "") = "151" ∧ 0 < i ∧ pyStrip (lines.getD (i - 1) "") = "-1" then
          stripAuxIdx lines (findSentinel lines (i + 1) + 1)
        else
          lines.getD i "" :: stripAuxIdx lines (i + 1)
      else [] := by
  conv_lhs => unfold stripAuxIdx
  simp

/-- The fallback filter loop, restated on indices, equals the declarative
filter `amendedFrom`, given that no block opened strictly before `i` is
still open at `i`. -/
theorem stripAuxIdx_eq_amendedFrom (lines : List String) (i : ℕ)
    (hcov : ∀ m, m < i → IsBlockHead lines m → findSentinel lines (m + 1) < i) :
    stripAuxIdx lines i = amendedFrom lines i := by
  by_cases h : i < lines.length
  · by_cases hhead :
      pyStrip (lines.getD i "") = "151" ∧ 0 < i ∧ pyStrip (lines.getD (i - 1) "") = "-1"
    · have hsi : i + 1 ≤ findSentinel lines (i + 1) := le_findSentinel lines (i + 1)
      have hheadP : IsBlockHead lines i := ⟨hhead.2.1, h, hhead.1, hhead.2.2⟩
      have hcov2 : ∀ m, m < findSentinel lines (i + 1) + 1 → IsBlockHead lines m →
          findSentinel lines (m + 1) < findSentinel lines (i + 1) + 1 := by
        intro m hm hbm
        rcases lt_trichotomy m i with hmi | hmi | hmi
        · exact lt_of_lt_of_le (hcov m hmi hbm) (by omega)
        · subst hmi; omega
        · exfalso
          rcases Nat.eq_or_lt_of_le (by omega : i ≤ m - 1) with he | hlt
          · exact absurd (hhead.1.symm.trans (he ▸ hbm.2.2.2)) (by decide)
          · exact findSentinel_min lines (i + 1) (m - 1) (by omega) (by omega) hbm.2.2.2
      have hrec := stripAuxIdx_eq_amendedFrom lines (findSentinel lines (i + 1) + 1) hcov2
      have hskip := amendedFrom_skip lines (findSentinel lines (i + 1) + 1 - i) i
        (fun k hk1 hk2 => ⟨i, hk1, hheadP, by omega⟩)
      rw [stripAuxIdx_step, if_pos h, if_pos hhead, hrec, hskip]
      congr 1
      omega
    · have hnr : removedB lines i = false := by
        rw [removedB_eq_false]
        rintro ⟨m, hmk, hbm, hks⟩
        rcases Nat.eq_or_lt_of_le hmk with he | hlt
        · subst he; exact hhead ⟨hbm.2.2.1, hbm.1, hbm.2.2.2⟩
        · have := hcov m hlt hbm; omega
      have hcov2 : ∀ m, m < i + 1 → IsBlockHead lines m →
          findSentinel lines (m + 1) < i + 1 := by
        intro m hm hbm
        rcases Nat.eq_or_lt_of_le (Nat.lt_succ_iff.mp hm) with he | hlt
        · exact absurd ⟨hbm.2.2.1, hbm.1, hbm.2.2.2⟩ (he ▸ hhead)
        · have := hcov m hlt hbm; omega
      rw [stripAuxIdx_step, if_pos h, if_neg hhead,
        stripAuxIdx_eq_amendedFrom lines (i + 1) hcov2, amendedFrom_step lines i h, hnr,
        if_neg (by simp), List.singleton_append]
  · rw [stripAuxIdx_step, if_neg h, amendedFrom_nil lines i (by omega)]
termination_by lines.length - i
decreasing_by
  · simp_wf; omega
  · simp_wf; omega

theorem prevOption_succ (lines : List String) (i : ℕ) :
    prevOption lines (i + 1) = some (lines.getD i "") := by
  rw [prevOption, if_neg (by omega)]
  simp

theorem stripGo_cond_iff (lines : List String) (i : ℕ) :
    (pyStrip (lines.getD i "") = "151" ∧
        (prevOption lines i).map pyStrip = some "-1") ↔
      (pyStrip (lines.getD i "") = "151" ∧ 0 < i ∧ pyStrip (lines.getD (i - 1) "") = "-1") := by
  rw [prevOption]
  by_cases h0 : i = 0
  · simp [h0]
  · simp [h0, Nat.pos_of_ne_zero h0]

/-- The structural one-pass filter agrees with the index-level loop, in
both of its states. -/
theorem stripGo_eq_stripAuxIdx (lines : List String) (i : ℕ) :
    stripGo .copy (prevOption lines i) (lines.drop i) = stripAuxIdx lines i ∧
      ∀ prev, stripGo .skip prev (lines.drop i) =
        stripAuxIdx lines (findSentinel lines i + 1) := by
  by_cases h : i < lines.length
  · have hdrop : lines.drop i = lines.getD i "" :: lines.drop (i + 1) := by
      rw [List.drop_eq_getElem_cons h, List.getD_eq_getElem lines "" h]
    obtain ⟨ihc, ihs⟩ := stripGo_eq_stripAuxIdx lines (i + 1)
    refine ⟨?_, ?_⟩
    · rw [hdrop]
      by_cases hcond : pyStrip (lines.getD i "") = "151" ∧
          (prevOption lines i).map pyStrip = some "-1"
      · have hhead := (stripGo_cond_iff lines i).mp hcond
        rw [stripGo, if_pos hcond, stripAuxIdx_step, if_pos h, if_pos hhead]
        exact ihs (some (lines.getD i ""))
      · have hhead := (stripGo_cond_iff lines i).not.mp hcond
        rw [stripGo, if_neg hcond, stripAuxIdx_step, if_pos h, if_neg hhead,
          ← prevOption_succ lines i, ihc]
    · intro prev
      rw [hdrop]
      by_cases hsen : pyStrip (lines.getD i "") = "-1"
      · have hfs : findSentinel lines i = i := by
          rw [findSentinel_step, if_pos h, if_pos hsen]
        rw [stripGo, if_pos hsen, hfs, ← prevOption_succ lines i, ihc]
      · have hfs : findSentinel lines i = findSentinel lines (i + 1) := by
          rw [findSentinel_step, if_pos h, if_neg hsen]
        rw [stripGo, if_neg hsen, hfs, ihs]
  · have hdrop : lines.drop i = [] := List.drop_eq_nil_of_le (by omega)
    have hfs : findSentinel lines i = i := by
      rw [findSentinel_step, if_neg h]
    refine ⟨?_, ?_⟩
    · rw [hdrop, stripGo, stripAuxIdx_step, if_neg h]
    · intro prev
      rw [hdrop, stripGo, hfs, stripAuxIdx_step, if_neg (by omega)]
termination_by lines.length - i
decreasing_by
  · simp_wf; omega

theorem stripBlocksAmended_eq_amendedFrom (lines : List String) :
    stripBlocksAmended lines = amendedFrom lines 0 := by
  rw [stripBlocksAmended, amendedFrom, List.range_eq_range', Nat.sub_zero]

/-- Concrete line list for claim C1: one dataset-151 block
(`"-1"`, `"151"`, `"x"`, `"-1"`) followed by an ordinary line `"A"`. -/
def exC1 : List String := ["-1", "151", "x", "-1", "A"]

/-- C1, counterexample.  The claim (with §4.2 of the specification) says the
closing `"-1"` sentinel of a stripped dataset-151 block is kept, "since it
also opens the next block", and every line outside the block is preserved.
On `exC1` the implemented filter drops the closing sentinel at index 3:
it returns `["-1", "A"]`, while the spec-side filter (sentinel kept)
returns `["-1", "-1", "A"]`. -/
theorem C1_counterexample :
    stripBlocks exC1 = ["-1", "A"] ∧
      stripBlocksSpec exC1 = ["-1", "-1", "A"] ∧
      stripBlocks exC1 ≠ stripBlocksSpec exC1 := by
  refine ⟨?_, ?_, ?_⟩ <;> decide

/-- C1, amended.  In the fallback path, for every input line list, the
filter removes exactly the lines of blocks opened by a `"151"` line that
is immediately preceded (in the original text) by a `"-1"` sentinel line —
from the opening marker through the next `"-1"` sentinel line *inclusive*
— and preserves all other lines in order. -/
theorem C1_strip_exact_blocks (lines : List String) :
    stripBlocks lines = stripBlocksAmended lines := by
  have h1 := (stripGo_eq_stripAuxIdx lines 0).1
  have h2 := stripAuxIdx_eq_amendedFrom lines 0 (fun m hm _ => absurd hm (by omega))
  have hp : prevOption lines 0 = none := rfl
  rw [stripBlocks, stripBlocksAmended_eq_amendedFrom, ← h2, ← h1, hp, List.drop_zero]

/-! ## Models of the Python numeric literal conversions -/

/-- Value of a decimal digit string. -/
def natOfDigits (cs : List Char) : ℕ :=
  cs.foldl (fun a c => a * 10 + (c.toNat - '0'.toNat)) 0

/-- Model of Python `int(str)`: optional surrounding whitespace, optional
sign, one or more decimal digits.  (Underscore separators are outside the
model.) -/
def pyInt? (s : String) : Option ℤ :=
  let cs := (pyStrip s).data
  let sgn : ℤ := match cs with | '-' :: _ => -1 | _ => 1
  let ds := match cs with | '-' :: r => r | '+' :: r => r | r => r
  if ds ≠ [] ∧ ds.all Char.isDigit then some (sgn * natOfDigits ds) else none

/-- Model of Python `float(str)` restricted to finite decimal and
scientific literals: optional sign, digits with an optional decimal point
(at least one digit overall), and an optional `e`/`E` exponent with
optional sign and at least one digit.  (`inf`, `nan` and underscore
separators are outside the model.)  The value is exact, as a rational. -/
def pyFloat? (s : String) : Option ℚ :=
  let cs := (pyStrip s).data
  let sgn : ℚ := match cs with | '-' :: _ => -1 | _ => 1
  let cs1 := match cs with | '-' :: r => r | '+' :: r => r | r => r
  let ip := cs1.takeWhile Char.isDigit
  let r1 := cs1.dropWhile Char.isDigit
  let hasDot : Bool := match r1 with | '.' :: _ => true | _ => false
  let fp := if hasDot then r1.tail.takeWhile Char.isDigit else []
  let r2 := if hasDot then r1.tail.dropWhile Char.isDigit else r1
  if ip.isEmpty ∧ fp.isEmpty then none
  else
    let mant : ℚ :=
      sgn * ((natOfDigits ip : ℚ) + (natOfDigits fp : ℚ) / ((10 : ℚ) ^ fp.length))
    match r2 with
    | [] => some mant
    | c :: r3 =>
      if c = 'e' ∨ c = 'E' then
        let esgn : ℤ := match r3 with | '-' :: _ => -1 | _ => 1
        let r4 := match r3 with | '-' :: r => r | '+' :: r => r | r => r
        if r4 ≠ [] ∧ r4.all Char.isDigit then
          some (mant * (10 : ℚ) ^ (esgn * (natOfDigits r4 : ℤ)))
        else none
      else none

/-! ## The custom parser `_parse_reconstructed_unv` (lines 703-832)

The parser receives the file as a list of lines (each already stripped of
its trailing newline, as done at line 709 of the source). -/

/-- Lines 711-719: scan for the two-line `-1` / `58` marker.  `i` is the
absolute index of the head of the remaining suffix; the result is the
index just past the marker pair. -/
def findMarkerGo (i : ℕ) : List String → Option ℕ
  | [] => none
  | l :: rest =>
    if pyStrip l = "-1" ∧ rest ≠ [] ∧ pyStrip (rest.headD "") = "58" then
      some (i + 2)
    else findMarkerGo (i + 1) rest

/-- Marker scan over the whole file. -/
def findMarker (lines : List String) : Option ℕ := findMarkerGo 0 lines

/-- Lines 750-763 of `_parse_reconstructed_unv`: a candidate payload-start
line contains `E` or `e` and its first two whitespace tokens both parse as
floats (a `float` failure is swallowed by the `try`). -/
def isDataLine (line : String) : Bool :=
  let l := pyStrip line
  (pyContains l 'E' || pyContains l 'e') &&
    (match pySplit l with
     | p0 :: p1 :: _ => (pyFloat? p0).isSome && (pyFloat? p1).isSome
     | _ => false)

/-- Lines 750-771: scan for the payload start.  `i` is the absolute index
of the head of the remaining suffix.  After a line fails the test, the
incremented index is checked against the *absolute* bound `100`; running
out of lines first yields the other error. -/
def findDataStartGo (i : ℕ) : List String → Except String ℕ
  | [] => .error "Could not locate data section"
  | l :: rest =>
    if isDataLine l then .ok i
    else if i + 1 > 100 then .error "Could not find data section in first 100 lines"
    else findDataStartGo (i + 1) rest

/-- Payload-start scan beginning at absolute index `i`. -/
def findDataStart (lines : List String) (i : ℕ) : Except String ℕ :=
  findDataStartGo i (lines.drop i)

/-- Lines 774-803: accumulate float tokens line by line until the `-1`
sentinel, the value target `num_points * 2`, or the safety bound of
`num_points * 3` parsed lines.  Empty lines are skipped without counting;
unparseable tokens are skipped silently. -/
def collectGo (target bound : ℤ) : List String → List ℚ → ℤ → List ℚ
  | [], acc, _ => acc
  | l :: rest, acc, linesParsed =>
    if (acc.length : ℤ) < target then
      let line := pyStrip l
      if line = "-1" then acc
      else if line = "" then collectGo target bound rest acc linesParsed
      else
        let acc2 := acc ++ (pySplit line).filterMap pyFloat?
        if linesParsed + 1 > bound then acc2
        else collectGo target bound rest acc2 (linesParsed + 1)
    else acc

/-- Payload accumulation beginning at absolute index `i`. -/
def collectValues (lines : List String) (i : ℕ) (target bound : ℤ) : List ℚ :=
  collectGo target bound (lines.drop i) [] 0

/-- Model of `np.linspace a b n` (with `endpoint=True`): `n` evenly spaced
samples from `a` to `b` inclusive; `[a]` for `n = 1`, `[]` for `n = 0`. -/
def linspaceQ (a b : ℚ) (n : ℕ) : List ℚ :=
  if n = 1 then [a]
  else (List.range n).map (fun k : ℕ => a + (k : ℚ) * ((b - a) / ((n : ℚ) - 1)))

/-- Model of `np.arange n * step + start`. -/
def arangeStep (start step : ℚ) (n : ℕ) : List ℚ :=
  (List.range n).map (fun k : ℕ => start + (k : ℚ) * step)

/-- Lines 814-820: the frequency-axis construction.  `np.linspace` raises
for a negative sample count; `np.arange` of a negative count is empty. -/
def buildAxis (spacing_type : ℤ) (x_min x_inc : ℚ) (num_points : ℤ) :
    Except String (List ℚ) :=
  if spacing_type = 1 ∧ x_min + 1 < x_inc then
    if num_points < 0 then .error "ValueError: Number of samples must be non-negative"
    else .ok (linspaceQ x_min x_inc num_points.toNat)
  else .ok (arangeStep x_min x_inc num_points.toNat)

/-- The header fields recovered from the characteristic line
(lines 727-742). -/
structure HeaderInfo where
  data_type : ℤ
  num_points : ℤ
  spacing_type : ℤ
  x_min : ℚ
  x_inc : ℚ
deriving DecidableEq

/-- Lines 711-747: marker scan, characteristic-line decoding, defaulting
of the two header reals, and the skip over the four axis-definition lines.
Returns the header and the absolute index at which the payload scan
starts. -/
def parseHeader (lines : List String) : Except String (HeaderInfo × ℕ) :=
  match findMarker lines with
  | none => .error "No Dataset 58 found in file"
  | some m =>
    if m + 1 < lines.length then
      let charToks := pySplit (lines.getD (m + 1) "")
      if 3 ≤ charToks.length then
        match pyInt? (charToks.getD 0 ""), pyInt? (charToks.getD 1 ""),
            pyInt? (charToks.getD 2 "") with
        | some dt, some np, some st =>
          if 6 ≤ charToks.length then
            match pyFloat? (charToks.getD 3 ""), pyFloat? (charToks.getD 4 "") with
            | some xm, some xi => .ok (⟨dt, np, st, xm, xi⟩, m + 6)
            | _, _ => .error "ValueError: could not convert string to float"
          else .ok (⟨dt, np, st, 0, 1⟩, m + 6)
        | _, _, _ => .error "ValueError: invalid literal for int"
      else .error "Invalid data characteristic line"
    else .error "IndexError: list index out of range"

/-- The record produced by the custom parser (the result dict of
lines 822-828). -/
structure PRecord where
  type : ℤ
  x : List ℚ
  data : List (List ℚ)
  data_type : ℤ
  num_points : ℤ
deriving DecidableEq

/-- Reshape a flat value list into rows of two (`reshape(num_points, 2)`
on an exactly even-length input). -/
def chunk2 : List ℚ → List (List ℚ)
  | a :: b :: rest => [a, b] :: chunk2 rest
  | _ => []

/-- Lines 805-832: zero-padding of a short payload, truncation of an
over-long one, reshape, axis construction, and the two diagnostic prints
of lines 830-831, which index `x_data[0]` and reduce over `data_array`
and therefore raise on empty results. -/
def assembleRecord (hdr : HeaderInfo) (vals : List ℚ) : Except String PRecord :=
  let target := (hdr.num_points * 2).toNat
  let flat := (vals ++ List.replicate (target - vals.length) (0 : ℚ)).take target
  let rows := chunk2 flat
  match buildAxis hdr.spacing_type hdr.x_min hdr.x_inc hdr.num_points with
  | .error e => .error e
  | .ok xs =>
    if xs.isEmpty then .error "IndexError: index 0 is out of bounds"
    else if rows.isEmpty then .error "ValueError: zero-size array to reduction operation"
    else .ok ⟨58, xs, rows, hdr.data_type, hdr.num_points⟩

/-- The custom parser `_parse_reconstructed_unv` on the file's lines. -/
def parseUNV (lines : List String) : Except String PRecord :=
  match parseHeader lines with
  | .error e => .error e
  | .ok (hdr, i0) =>
    match findDataStart lines i0 with
    | .error e => .error e
    | .ok j =>
      assembleRecord hdr (collectValues lines j (hdr.num_points * 2) (hdr.num_points * 3))

/-! ## Basic facts about the parser components -/

theorem getD_map_range (f : ℕ → ℚ) (n k : ℕ) (hk : k < n) :
    ((List.range n).map f).getD k 0 = f k := by
  rw [List.getD_eq_getElem _ _ (by simpa using hk)]
  simp

theorem linspaceQ_length (a b : ℚ) (n : ℕ) : (linspaceQ a b n).length = n := by
  by_cases h : n = 1
  · subst h; rfl
  · rw [linspaceQ, if_neg h]; simp

theorem arangeStep_length (a s : ℚ) (n : ℕ) : (arangeStep a s n).length = n := by
  rw [arangeStep]; simp

theorem linspaceQ_ne_nil (a b : ℚ) (n : ℕ) (h : 1 ≤ n) : linspaceQ a b n ≠ [] := by
  intro hc
  have := linspaceQ_length a b n
  rw [hc] at this
  simp at this
  omega

theorem arangeStep_ne_nil (a s : ℚ) (n : ℕ) (h : 1 ≤ n) : arangeStep a s n ≠ [] := by
  intro hc
  have := arangeStep_length a s n
  rw [hc] at this
  simp at this
  omega

theorem buildAxis_ok_length (st : ℤ) (a b : ℚ) (n : ℤ) (xs : List ℚ)
    (h : buildAxis st a b n = .ok xs) : xs.length = n.toNat := by
  rw [buildAxis] at h
  split at h
  · split at h
    · simp at h
    · cases h
      exact linspaceQ_length a b n.toNat
  · cases h
    exact arangeStep_length a b n.toNat

theorem chunk2_length : ∀ l : List ℚ, (chunk2 l).length = l.length / 2
  | [] => rfl
  | [_] => by simp [chunk2]
  | a :: b :: rest => by
    simp only [chunk2, List.length_cons]
    rw [chunk2_length rest]
    omega

theorem chunk2_mem : ∀ (l : List ℚ) (row : List ℚ), row ∈ chunk2 l → row.length = 2
  | [], _, h => by simp [chunk2] at h
  | [_], _, h => by simp [chunk2] at h
  | a :: b :: rest, row, h => by
    simp only [chunk2, List.mem_cons] at h
    rcases h with h | h
    · rw [h]; rfl
    · exact chunk2_mem rest row h

theorem padded_getD_zero (vals : List ℚ) (m k : ℕ) (h1 : vals.length ≤ k) :
    (vals ++ List.replicate m (0 : ℚ)).getD k 0 = 0 := by
  rw [List.getD_eq_getElem?_getD, List.getElem?_append_right h1, List.getElem?_replicate]
  split <;> rfl

/-! ## Claim C2: the frequency-axis construction -/

/-- C2.  For every parsed header, the frequency axis of
`_parse_reconstructed_unv` (lines 814-820, embedded as `buildAxis`)
satisfies: when `spacing_type = 1` and `x_increment_or_max > x_min + 1`,
the axis has `point_count` entries, starts at `x_min`, ends at
`x_increment_or_max`, and is evenly spaced (endpoints interpretation);
in every other case the axis is the arithmetic progression
`x_min + k * x_increment_or_max`.  Stated for `point_count ≥ 2`, the
least count for which the endpoints reading is non-degenerate. -/
theorem C2_frequency_axis (st : ℤ) (xmin xinc : ℚ) (n : ℕ) (hn : 2 ≤ n) :
    ∃ ax, buildAxis st xmin xinc (n : ℤ) = .ok ax ∧ ax.length = n ∧
      ((st = 1 ∧ xmin + 1 < xinc) →
        ax.getD 0 0 = xmin ∧ ax.getD (n - 1) 0 = xinc ∧
          ∀ k, k + 1 < n →
            ax.getD (k + 1) 0 - ax.getD k 0 = (xinc - xmin) / ((n : ℚ) - 1)) ∧
      (¬(st = 1 ∧ xmin + 1 < xinc) →
        ∀ k, k < n → ax.getD k 0 = xmin + (k : ℚ) * xinc) := by
  have hn1 : ((n : ℚ) - 1) ≠ 0 := by
    have h2 : (2 : ℚ) ≤ (n : ℚ) := by exact_mod_cast hn
    linarith
  by_cases hc : st = 1 ∧ xmin + 1 < xinc
  · refine ⟨linspaceQ xmin xinc n, ?_, linspaceQ_length xmin xinc n, ?_,
      fun hnc => absurd hc hnc⟩
    · rw [buildAxis, if_pos hc, if_neg (by omega)]
      simp
    · intro _
      rw [linspaceQ, if_neg (by omega)]
      refine ⟨?_, ?_, ?_⟩
      · rw [getD_map_range _ _ _ (by omega)]
        simp
      · rw [getD_map_range _ _ _ (by omega)]
        rw [Nat.cast_sub (by omega : 1 ≤ n), Nat.cast_one, mul_comm,
          div_mul_cancel₀ _ hn1]
        ring
      · intro k hk
        rw [getD_map_range _ _ _ (by omega), getD_map_range _ _ _ (by omega)]
        push_cast
        ring
  · refine ⟨arangeStep xmin xinc n, ?_, arangeStep_length xmin xinc n,
      fun hcc => absurd hcc hc, ?_⟩
    · rw [buildAxis, if_neg hc]
      simp
    · intro hnc k hk
      rw [arangeStep, getD_map_range _ _ _ hk]

/-- C2, witness at `spacing_type = 1`, `x_min = 0`, `x_inc = 100`,
`point_count = 2`. -/
theorem C2_frequency_axis_witness :
    ∃ ax, buildAxis 1 0 100 ((2 : ℕ) : ℤ) = .ok ax ∧ ax.length = 2 ∧
      (((1 : ℤ) = 1 ∧ (0 : ℚ) + 1 < 100) →
        ax.getD 0 0 = 0 ∧ ax.getD (2 - 1) 0 = 100 ∧
          ∀ k, k + 1 < 2 →
            ax.getD (k + 1) 0 - ax.getD k 0 = (100 - 0) / (((2 : ℕ) : ℚ) - 1)) ∧
      (¬((1 : ℤ) = 1 ∧ (0 : ℚ) + 1 < 100) →
        ∀ k, k < 2 → ax.getD k 0 = 0 + (k : ℚ) * 100) :=
  C2_frequency_axis 1 0 100 2 (by norm_num)

/-! ## Claim C3: the payload-start scan window -/

/-- C3, amended.  The payload-start scan of `_parse_reconstructed_unv`
(lines 750-771) succeeds with index `j` exactly when `j` is the first
line at or after the scan start whose test passes, and `j` either lies
within the *absolute* window `j ≤ 100` (indices counted from the start of
the file, not from the scan start) or is the scan-start line itself; in
every other situation the scan fails. -/
theorem C3_scan_window (lines : List String) (i0 j : ℕ) :
    findDataStart lines i0 = .ok j ↔
      (i0 ≤ j ∧ j < lines.length ∧ (j ≤ 100 ∨ j = i0) ∧
        isDataLine (lines.getD j "") = true ∧
        ∀ k, i0 ≤ k → k < j → isDataLine (lines.getD k "") = false) := by
  rw [findDataStart]
  by_cases h : i0 < lines.length
  · have hdrop : lines.drop i0 = lines.getD i0 "" :: lines.drop (i0 + 1) := by
      rw [List.drop_eq_getElem_cons h, List.getD_eq_getElem lines "" h]
    rw [hdrop]
    by_cases hd : isDataLine (lines.getD i0 "") = true
    · rw [findDataStartGo, if_pos hd]
      simp only [Except.ok.injEq]
      constructor
      · rintro rfl
        exact ⟨le_rfl, h, Or.inr rfl, hd, fun k hk1 hk2 => absurd hk2 (by omega)⟩
      · rintro ⟨hj1, hj2, hj3, hj4, hj5⟩
        rcases Nat.eq_or_lt_of_le hj1 with he | hlt
        · exact he
        · have hcontra := hj5 i0 le_rfl hlt
          rw [hd] at hcontra
          cases hcontra
    · have hdF : isDataLine (lines.getD i0 "") = false := by
        cases hv : isDataLine (lines.getD i0 "")
        · rfl
        · exact absurd hv hd
      rw [findDataStartGo, if_neg hd]
      by_cases hb : i0 + 1 > 100
      · rw [if_pos hb]
        constructor
        · intro hcontra; cases hcontra
        · rintro ⟨hj1, hj2, hj3, hj4, hj5⟩
          exfalso
          rcases Nat.eq_or_lt_of_le hj1 with he | hlt
          · rw [← he] at hj4
            rw [hdF] at hj4
            cases hj4
          · rcases hj3 with h100 | hi0eq <;> omega
      · rw [if_neg hb]
        have hre : findDataStartGo (i0 + 1) (lines.drop (i0 + 1)) =
            findDataStart lines (i0 + 1) := rfl
        rw [hre, C3_scan_window lines (i0 + 1) j]
        constructor
        · rintro ⟨h1, h2, h3, h4, h5⟩
          refine ⟨by omega, h2, ?_, h4, ?_⟩
          · rcases h3 with h3 | h3
            · exact Or.inl h3
            · exact Or.inl (by omega)
          · intro k hk1 hk2
            rcases Nat.eq_or_lt_of_le hk1 with he | hlt
            · rw [← he]; exact hdF
            · exact h5 k hlt hk2
        · rintro ⟨h1, h2, h3, h4, h5⟩
          have hne : j ≠ i0 := by
            intro he
            rw [he, hdF] at h4
            cases h4
          refine ⟨by omega, h2, ?_, h4, fun k hk1 hk2 => h5 k (by omega) hk2⟩
          rcases h3 with h3 | h3
          · exact Or.inl h3
          · exact absurd h3 hne
  · have hdrop : lines.drop i0 = [] := List.drop_eq_nil_of_le (by omega)
    rw [hdrop, findDataStartGo]
    constructor
    · intro hcontra; cases hcontra
    · rintro ⟨h1, h2, _⟩; omega
termination_by lines.length - i0
decreasing_by simp_wf; omega

/-- Concrete input for claim C3: the dataset marker sits at lines 92-93,
so the payload scan starts at absolute line 100; a junk line occupies
line 100 and a valid payload line sits at line 101 — one line after the
scan start, well inside any 100-line window relative to the scan start. -/
def exC3 : List String :=
  List.replicate 92 "x" ++
    ["-1", "58", "meta", "2 1 0", "a1", "a2", "a3", "a4", "pad", "1.0E0 2.0E0"]

/-! ## Claims C8 and C9: padding policy and shape invariant -/

/-- The parser is the composition of its phases. -/
theorem parseUNV_eq (lines : List String) (hdr : HeaderInfo) (i0 j : ℕ)
    (h1 : parseHeader lines = .ok (hdr, i0)) (h2 : findDataStart lines i0 = .ok j) :
    parseUNV lines =
      assembleRecord hdr (collectValues lines j (hdr.num_points * 2) (hdr.num_points * 3)) := by
  unfold parseUNV
  rw [h1]
  dsimp only
  rw [h2]

/-- A short payload is zero-padded and assembly then succeeds. -/
theorem assembleRecord_short (hdr : HeaderInfo) (vals : List ℚ)
    (hshort : vals.length < (hdr.num_points * 2).toNat) :
    ∃ r, assembleRecord hdr vals = .ok r ∧
      r.data = chunk2 (vals ++
        List.replicate ((hdr.num_points * 2).toNat - vals.length) (0 : ℚ)) := by
  have hn : 1 ≤ hdr.num_points := by
    by_contra hcon
    have : (hdr.num_points * 2).toNat = 0 := by omega
    omega
  have ht2 : 2 ≤ (hdr.num_points * 2).toNat := by omega
  have hflat : (vals ++ List.replicate ((hdr.num_points * 2).toNat - vals.length)
        (0 : ℚ)).take (hdr.num_points * 2).toNat
      = vals ++ List.replicate ((hdr.num_points * 2).toNat - vals.length) (0 : ℚ) := by
    apply List.take_of_length_le
    rw [List.length_append, List.length_replicate]
    omega
  have hpadlen : (vals ++ List.replicate ((hdr.num_points * 2).toNat - vals.length)
      (0 : ℚ)).length = (hdr.num_points * 2).toNat := by
    rw [List.length_append, List.length_replicate]
    omega
  have hrowsne : chunk2 (vals ++ List.replicate ((hdr.num_points * 2).toNat - vals.length)
      (0 : ℚ)) ≠ [] := by
    intro hcon
    have hlen := chunk2_length (vals ++
      List.replicate ((hdr.num_points * 2).toNat - vals.length) (0 : ℚ))
    rw [hcon, hpadlen] at hlen
    simp at hlen
    omega
  have hax : ∃ xs, buildAxis hdr.spacing_type hdr.x_min hdr.x_inc hdr.num_points = .ok xs ∧
      xs ≠ [] := by
    rw [buildAxis]
    split
    · rw [if_neg (by omega)]
      exact ⟨_, rfl, linspaceQ_ne_nil _ _ _ (by omega)⟩
    · exact ⟨_, rfl, arangeStep_ne_nil _ _ _ (by omega)⟩
  obtain ⟨xs, hxs, hxsne⟩ := hax
  have hxse : xs.isEmpty = false := by
    cases xs
    · exact absurd rfl hxsne
    · rfl
  have hrowse : (chunk2 (vals ++ List.replicate ((hdr.num_points * 2).toNat - vals.length)
      (0 : ℚ))).isEmpty = false := by
    cases hcc : chunk2 (vals ++ List.replicate ((hdr.num_points * 2).toNat - vals.length)
      (0 : ℚ))
    · exact absurd hcc hrowsne
    · rfl
  refine ⟨⟨58, xs, chunk2 (vals ++
      List.replicate ((hdr.num_points * 2).toNat - vals.length) (0 : ℚ)),
      hdr.data_type, hdr.num_points⟩, ?_, rfl⟩
  simp only [assembleRecord, hflat, hxs, hxse, hrowse]
  simp

/-- C8.  Whenever the custom parser reaches payload accumulation and
collects fewer than `point_count * 2` values before the terminating
sentinel, parsing succeeds, the response table is built from the value
list right-padded with zeros to exactly `point_count * 2` entries, and
every padded trailing position holds exactly `0`. -/
theorem C8_zero_padding (lines : List String) (hdr : HeaderInfo) (i0 j : ℕ)
    (h1 : parseHeader lines = .ok (hdr, i0))
    (h2 : findDataStart lines i0 = .ok j)
    (hshort : (collectValues lines j (hdr.num_points * 2) (hdr.num_points * 3)).length <
      (hdr.num_points * 2).toNat) :
    ∃ r, parseUNV lines = .ok r ∧
      r.data = chunk2 (collectValues lines j (hdr.num_points * 2) (hdr.num_points * 3) ++
        List.replicate ((hdr.num_points * 2).toNat -
          (collectValues lines j (hdr.num_points * 2) (hdr.num_points * 3)).length) (0 : ℚ)) ∧
      ∀ k, (collectValues lines j (hdr.num_points * 2) (hdr.num_points * 3)).length ≤ k →
        (collectValues lines j (hdr.num_points * 2) (hdr.num_points * 3) ++
          List.replicate ((hdr.num_points * 2).toNat -
            (collectValues lines j (hdr.num_points * 2) (hdr.num_points * 3)).length)
            (0 : ℚ)).getD k 0 = 0 := by
  obtain ⟨r, hr, hdata⟩ :=
    assembleRecord_short hdr (collectValues lines j (hdr.num_points * 2)
      (hdr.num_points * 3)) hshort
  refine ⟨r, ?_, hdata, fun k hk => padded_getD_zero _ _ _ hk⟩
  rw [parseUNV_eq lines hdr i0 j h1 h2, hr]

/-- All success cases of record assembly satisfy the shape invariant. -/
theorem assembleRecord_ok (hdr : HeaderInfo) (vals : List ℚ) (r : PRecord)
    (h : assembleRecord hdr vals = .ok r) :
    1 ≤ hdr.num_points ∧ r.num_points = hdr.num_points ∧
      (r.x.length : ℤ) = hdr.num_points ∧ (r.data.length : ℤ) = hdr.num_points ∧
      ∀ row ∈ r.data, row.length = 2 := by
  rw [assembleRecord] at h
  cases hb : buildAxis hdr.spacing_type hdr.x_min hdr.x_inc hdr.num_points with
  | error e => rw [hb] at h; simp at h
  | ok xs =>
    rw [hb] at h
    simp only [] at h
    by_cases hxe : xs.isEmpty
    · rw [if_pos hxe] at h; cases h
    · rw [if_neg hxe] at h
      by_cases hre : (chunk2 ((vals ++ List.replicate ((hdr.num_points * 2).toNat -
          vals.length) (0 : ℚ)).take (hdr.num_points * 2).toNat)).isEmpty
      · rw [if_pos hre] at h; cases h
      · rw [if_neg hre] at h
        cases h
        have hxlen : xs.length = hdr.num_points.toNat := buildAxis_ok_length _ _ _ _ _ hb
        have hxpos : 1 ≤ hdr.num_points := by
          by_contra hcon
          apply hxe
          have : xs.length = 0 := by omega
          cases xs
          · rfl
          · simp at this
        have hflen : ((vals ++ List.replicate ((hdr.num_points * 2).toNat - vals.length)
            (0 : ℚ)).take (hdr.num_points * 2).toNat).length = (hdr.num_points * 2).toNat := by
          rw [List.length_take, List.length_append, List.length_replicate]
          omega
        have hrl := chunk2_length ((vals ++ List.replicate ((hdr.num_points * 2).toNat -
          vals.length) (0 : ℚ)).take (hdr.num_points * 2).toNat)
        rw [hflen] at hrl
        refine ⟨hxpos, rfl, ?_, ?_, ?_⟩
        · dsimp only
          omega
        · dsimp only
          omega
        · intro row hrow
          dsimp only at hrow
          exact chunk2_mem _ row hrow

/-- C9.  Every record returned by the custom parser satisfies the shape
invariant: a positive stored point count, a frequency axis of exactly
`num_points` entries, and a response of exactly `num_points` rows of two
columns — excess collected values having been truncated and missing ones
zero-padded. -/
theorem C9_shape_invariant (lines : List String) (r : PRecord)
    (h : parseUNV lines = .ok r) :
    1 ≤ r.num_points ∧ (r.x.length : ℤ) = r.num_points ∧
      (r.data.length : ℤ) = r.num_points ∧ ∀ row ∈ r.data, row.length = 2 := by
  unfold parseUNV at h
  cases hph : parseHeader lines with
  | error e => rw [hph] at h; simp at h
  | ok p =>
    obtain ⟨hdr, i0⟩ := p
    rw [hph] at h
    simp only [] at h
    cases hfd : findDataStart lines i0 with
    | error e => rw [hfd] at h; simp at h
    | ok j =>
      rw [hfd] at h
      simp only [] at h
      obtain ⟨hn, hnp, hx, hd, hrows⟩ := assembleRecord_ok hdr _ r h
      rw [← hnp] at hn hx hd
      exact ⟨hn, hx, hd, hrows⟩

/-! ## Grid alignment: `_interpolate_to_common_grid` (lines 921-928) -/

/-- Model of `np.max` on a nonempty array (`0` for the empty array, on
which numpy raises; all uses below are guarded by nonemptiness). -/
def npMax : List ℚ → ℚ
  | [] => 0
  | h :: t => t.foldl max h

/-- Model of `np.min` on a nonempty array. -/
def npMin : List ℚ → ℚ
  | [] => 0
  | h :: t => t.foldl min h

theorem headD_le_of_mem (xs : List ℚ) (hc : List.Chain' (· ≤ ·) xs) :
    ∀ y ∈ xs, xs.headD 0 ≤ y := by
  cases xs with
  | nil => intro y hy; cases hy
  | cons x t =>
    intro y hy
    rcases List.mem_cons.mp hy with rfl | hyt
    · exact le_refl y
    · have hp := List.chain'_iff_pairwise.mp hc
      exact (List.pairwise_cons.mp hp).1 y hyt

theorem le_getLastD_of_mem : ∀ (xs : List ℚ), List.Chain' (· ≤ ·) xs →
    ∀ y ∈ xs, y ≤ xs.getLastD 0
  | [], _, y, hy => by cases hy
  | [x], _, y, hy => by
    rcases List.mem_singleton.mp hy with rfl
    simp [List.getLastD]
  | x :: x2 :: t, hc, y, hy => by
    have hx : x ≤ x2 := (List.chain'_cons.mp hc).1
    have hc2 : List.Chain' (· ≤ ·) (x2 :: t) := (List.chain'_cons.mp hc).2
    have hlast : (x :: x2 :: t).getLastD 0 = (x2 :: t).getLastD 0 := by
      simp only [List.getLastD_cons]
    rw [hlast]
    rcases List.mem_cons.mp hy with rfl | hyt
    · exact le_trans hx (le_getLastD_of_mem (x2 :: t) hc2 x2 (List.mem_cons_self _ _))
    · exact le_getLastD_of_mem (x2 :: t) hc2 y hyt

theorem foldl_min_of_le (t : List ℚ) : ∀ x : ℚ, (∀ y ∈ t, x ≤ y) → t.foldl min x = x := by
  induction t with
  | nil => intro x _; rfl
  | cons y t ih =>
    intro x h
    rw [List.foldl_cons, min_eq_left (h y (List.mem_cons_self _ _))]
    exact ih x (fun z hz => h z (List.mem_cons_of_mem _ hz))

theorem npMin_eq_headD (xs : List ℚ) (hne : xs ≠ []) (hc : List.Chain' (· ≤ ·) xs) :
    npMin xs = xs.headD 0 := by
  cases xs with
  | nil => exact absurd rfl hne
  | cons x t =>
    show t.foldl min x = x
    apply foldl_min_of_le
    intro y hy
    exact headD_le_of_mem (x :: t) hc y (List.mem_cons_of_mem _ hy)

theorem npMax_eq_getLastD : ∀ (xs : List ℚ), xs ≠ [] → List.Chain' (· ≤ ·) xs →
    npMax xs = xs.getLastD 0
  | [], h, _ => absurd rfl h
  | [x], _, _ => rfl
  | x :: x2 :: t, _, hc => by
    have hx : x ≤ x2 := (List.chain'_cons.mp hc).1
    have hc2 : List.Chain' (· ≤ ·) (x2 :: t) := (List.chain'_cons.mp hc).2
    have ih := npMax_eq_getLastD (x2 :: t) (by simp) hc2
    show (x2 :: t).foldl max x = _
    rw [List.foldl_cons, max_eq_right hx]
    have h1 : t.foldl max x2 = npMax (x2 :: t) := rfl
    rw [h1, ih]
    simp only [List.getLastD_cons]

theorem getD_lt_getD (xs : List ℚ) (hs : List.Chain' (· < ·) xs) (j i : ℕ)
    (hji : j < i) (hi : i < xs.length) : xs.getD j 0 < xs.getD i 0 := by
  have hp := List.chain'_iff_pairwise.mp hs
  rw [List.getD_eq_getElem _ _ (by omega), List.getD_eq_getElem _ _ hi]
  exact List.pairwise_iff_getElem.mp hp j i (by omega) hi hji

/-- Left insertion index of `t` into `xs` (`np.searchsorted` with
`side='left'`, for a sorted `xs`): the first index whose element is
at least `t`, or `xs.length` when there is none. -/
def searchsortedLeft (xs : List ℚ) (t : ℚ) : ℕ :=
  xs.findIdx (fun x => decide (t ≤ x))

theorem searchsortedLeft_at_node (xs : List ℚ) (hs : List.Chain' (· < ·) xs)
    (i : ℕ) (hi : i < xs.length) : searchsortedLeft xs (xs.getD i 0) = i := by
  rw [searchsortedLeft, List.findIdx_eq hi]
  constructor
  · rw [List.getD_eq_getElem _ _ hi]
    simp
  · intro j hj
    have hlt := getD_lt_getD xs hs j i hj hi
    rw [List.getD_eq_getElem _ _ (by omega), List.getD_eq_getElem _ _ hi] at hlt
    rw [List.getD_eq_getElem _ _ hi]
    simp only [decide_eq_false_iff_not, not_le]
    exact hlt

/-- Model of `scipy.interpolate.interp1d(xs, ys, kind='linear',
bounds_error=False, fill_value=0)` evaluated at one point, for a sorted
`xs` (scipy argsorts its input; the axes produced by the parser are
already in axis order).  Outside `[xs.head, xs.last]` the fill value `0`
is returned; inside, the bracketing interval is found with a clipped
left-search and the value is linearly interpolated. -/
def interp1dAt (xs ys : List ℚ) (t : ℚ) : ℚ :=
  if t < xs.headD 0 ∨ xs.getLastD 0 < t then 0
  else
    (ys.getD (min (max (searchsortedLeft xs t) 1) (xs.length - 1)) 0 -
        ys.getD (min (max (searchsortedLeft xs t) 1) (xs.length - 1) - 1) 0) /
      (xs.getD (min (max (searchsortedLeft xs t) 1) (xs.length - 1)) 0 -
        xs.getD (min (max (searchsortedLeft xs t) 1) (xs.length - 1) - 1) 0) *
      (t - xs.getD (min (max (searchsortedLeft xs t) 1) (xs.length - 1) - 1) 0) +
      ys.getD (min (max (searchsortedLeft xs t) 1) (xs.length - 1) - 1) 0

/-- One aligned sample: real and imaginary parts interpolated
independently (lines 923-928). -/
def alignAt (xs : List ℚ) (ys : List (ℚ × ℚ)) (t : ℚ) : ℚ × ℚ :=
  (interp1dAt xs (ys.map Prod.fst) t, interp1dAt xs (ys.map Prod.snd) t)

/-- `_interpolate_to_common_grid`: the complex source signal `ys` on the
axis `xs`, resampled at every target frequency of `ts`. -/
def alignComplex (xs : List ℚ) (ys : List (ℚ × ℚ)) (ts : List ℚ) : List (ℚ × ℚ) :=
  ts.map (alignAt xs ys)

theorem interp1dAt_outside (xs ys : List ℚ) (t : ℚ)
    (h : t < xs.headD 0 ∨ xs.getLastD 0 < t) : interp1dAt xs ys t = 0 := by
  rw [interp1dAt, if_pos h]

theorem interp1dAt_node (xs ys : List ℚ) (h2 : 2 ≤ xs.length)
    (hs : List.Chain' (· < ·) xs) (i : ℕ) (hi : i < xs.length) :
    interp1dAt xs ys (xs.getD i 0) = ys.getD i 0 := by
  have hle : List.Chain' (· ≤ ·) xs := hs.imp (fun a b h => le_of_lt h)
  have hmem : xs.getD i 0 ∈ xs := by
    rw [List.getD_eq_getElem _ _ hi]
    exact List.getElem_mem hi
  have hnotout : ¬(xs.getD i 0 < xs.headD 0 ∨ xs.getLastD 0 < xs.getD i 0) := by
    push_neg
    exact ⟨headD_le_of_mem xs hle _ hmem, le_getLastD_of_mem xs hle _ hmem⟩
  rw [interp1dAt, if_neg hnotout, searchsortedLeft_at_node xs hs i hi]
  by_cases hi0 : i = 0
  · subst hi0
    have hidx : min (max 0 1) (xs.length - 1) = 1 := by omega
    rw [hidx]
    norm_num
  · have hidx : min (max i 1) (xs.length - 1) = i := by omega
    rw [hidx]
    have hlt : xs.getD (i - 1) 0 < xs.getD i 0 := getD_lt_getD xs hs (i - 1) i (by omega) hi
    have hne : xs.getD i 0 - xs.getD (i - 1) 0 ≠ 0 := by linarith
    rw [div_mul_cancel₀ _ hne]
    ring

theorem getD_map_pair (f : (ℚ × ℚ) → ℚ) (l : List (ℚ × ℚ)) (k : ℕ) (d : ℚ)
    (hk : k < l.length) : (l.map f).getD k d = f (l.getD k (0, 0)) := by
  rw [List.getD_eq_getElem _ _ (by simpa using hk), List.getD_eq_getElem _ _ hk]
  simp

/-- C6.  For a source axis of at least two strictly increasing
frequencies and a matching complex signal, `align` returns one sample per
target frequency; every target strictly outside
`[min(source), max(source)]` yields exactly `0 + 0j`, and every target
equal to the `i`-th source frequency yields exactly the `i`-th source
sample (real and imaginary parts interpolated independently). -/
theorem C6_align (xs : List ℚ) (ys : List (ℚ × ℚ)) (ts : List ℚ)
    (h2 : 2 ≤ xs.length) (hlen : ys.length = xs.length)
    (hsort : List.Chain' (· < ·) xs) :
    (alignComplex xs ys ts).length = ts.length ∧
      ∀ k, k < ts.length →
        ((ts.getD k 0 < npMin xs ∨ npMax xs < ts.getD k 0) →
          (alignComplex xs ys ts).getD k (0, 0) = (0, 0)) ∧
        ∀ i, i < xs.length → ts.getD k 0 = xs.getD i 0 →
          (alignComplex xs ys ts).getD k (0, 0) = ys.getD i (0, 0) := by
  have hle : List.Chain' (· ≤ ·) xs := hsort.imp (fun a b h => le_of_lt h)
  have hne : xs ≠ [] := by
    intro hcon
    rw [hcon] at h2
    simp at h2
  have hget : ∀ k, k < ts.length →
      (alignComplex xs ys ts).getD k (0, 0) = alignAt xs ys (ts.getD k 0) := by
    intro k hk
    rw [alignComplex]
    rw [List.getD_eq_getElem _ _ (by simpa using hk), List.getD_eq_getElem _ _ hk]
    simp
  refine ⟨by simp [alignComplex], fun k hk => ⟨?_, ?_⟩⟩
  · intro hout
    rw [hget k hk, alignAt, interp1dAt_outside, interp1dAt_outside]
    · rw [npMin_eq_headD xs hne hle, npMax_eq_getLastD xs hne hle] at hout
      exact hout
    · rw [npMin_eq_headD xs hne hle, npMax_eq_getLastD xs hne hle] at hout
      exact hout
  · intro i hi hnode
    rw [hget k hk, alignAt, hnode, interp1dAt_node _ _ h2 hsort i hi,
      interp1dAt_node _ _ h2 hsort i hi,
      getD_map_pair _ _ _ _ (by omega), getD_map_pair _ _ _ _ (by omega)]

/-- C6, witness: source axis `[10, 100]`, samples `(1,2)` and `(3,4)`,
targets `5` (below), `150` (above) and `10` (an exact node). -/
theorem C6_align_witness :
    (alignComplex [10, 100] [(1, 2), (3, 4)] [5, 150, 10]).length =
        ([5, 150, 10] : List ℚ).length ∧
      ∀ k, k < ([5, 150, 10] : List ℚ).length →
        ((([5, 150, 10] : List ℚ).getD k 0 < npMin [10, 100] ∨
            npMax [10, 100] < ([5, 150, 10] : List ℚ).getD k 0) →
          (alignComplex [10, 100] [(1, 2), (3, 4)] [5, 150, 10]).getD k (0, 0) = (0, 0)) ∧
        ∀ i, i < ([10, 100] : List ℚ).length →
          ([5, 150, 10] : List ℚ).getD k 0 = ([10, 100] : List ℚ).getD i 0 →
          (alignComplex [10, 100] [(1, 2), (3, 4)] [5, 150, 10]).getD k (0, 0) =
            ([(1, 2), (3, 4)] : List (ℚ × ℚ)).getD i (0, 0) :=
  C6_align [10, 100] [(1, 2), (3, 4)] [5, 150, 10] (by norm_num) rfl
    (by norm_num [List.chain'_cons])

/-! ## Validation metrics engine: `_compute_all_metrics` (lines 930-998)

The caller (line 908) passes `(x_recon, y_recon_complex, y_testlab_interp)`;
inside the engine the first signal is called `y_original`.  The embedding
keeps the engine's own parameter names. -/

/-- Model of `np.mean` (`0/0 = 0` for the empty list, on which numpy
returns `nan` with a warning; all uses below are on nonempty lists). -/
def mean (xs : List ℚ) : ℚ := xs.sum / (xs.length : ℚ)

/-- Residual sum of squares of `yp` against `yt`. -/
def ssRes (yt yp : List ℚ) : ℚ := (List.zipWith (fun a b => (a - b) ^ 2) yt yp).sum

/-- Total sum of squares of `yt` about its mean. -/
def ssTot (yt : List ℚ) : ℚ := (yt.map (fun a => (a - mean yt) ^ 2)).sum

/-- Model of `sklearn.metrics.r2_score(y_true, y_pred)` (documented
formula plus its zero-denominator convention: `1.0` when the residual is
also zero, else `0.0`).  sklearn additionally returns `nan` for fewer
than two samples; that case is outside the model. -/
def r2_score (yt yp : List ℚ) : ℚ :=
  if ssTot yt = 0 then (if ssRes yt yp = 0 then 1 else 0)
  else 1 - ssRes yt yp / ssTot yt

/-- Spec-side R², following the claim's words: "unavailable" (`none`)
when the reference magnitude is constant, else the standard
coefficient of determination. -/
def r2_spec (yt yp : List ℚ) : Option ℚ :=
  if ssTot yt = 0 then none else some (1 - ssRes yt yp / ssTot yt)

/-! Model of `scipy.signal.find_peaks(x, prominence=p)`: local maxima
with plateau handling (`_local_maxima_1d`), prominences computed by the
two base walks of `_peak_prominences`, and selection by
`prominence >= p`.  Loops are written with an explicit fuel argument
equal to their iteration bound so that they reduce in the kernel. -/

/-- End of the plateau of value `v` starting at `i` (bounded by `imax`);
`fuel` dominates `imax - i`. -/
def plateauEnd (xs : List ℚ) (v : ℚ) (imax : ℕ) : ℕ → ℕ → ℕ
  | 0, i => i
  | fuel + 1, i => if i < imax ∧ xs.getD i 0 = v then plateauEnd xs v imax fuel (i + 1) else i

/-- The midpoints of all local maxima (plateaus included), scanning
indices `1 ≤ i < imax` with `imax = n - 1`. -/
def localMaximaGo (xs : List ℚ) (imax : ℕ) : ℕ → ℕ → List ℕ
  | 0, _ => []
  | fuel + 1, i =>
    if i < imax then
      if xs.getD (i - 1) 0 < xs.getD i 0 then
        if xs.getD (plateauEnd xs (xs.getD i 0) imax imax (i + 1)) 0 < xs.getD i 0 then
          ((i + (plateauEnd xs (xs.getD i 0) imax imax (i + 1) - 1)) / 2) ::
            localMaximaGo xs imax fuel (plateauEnd xs (xs.getD i 0) imax imax (i + 1) + 1)
        else localMaximaGo xs imax fuel (i + 1)
      else localMaximaGo xs imax fuel (i + 1)
    else []

/-- `scipy.signal._local_maxima_1d`. -/
def localMaxima (xs : List ℚ) : List ℕ := localMaximaGo xs (xs.length - 1) xs.length 1

/-- Left walk of `_peak_prominences`: minimum of the values `≤ h` from
index `i` leftwards to the border or the first value above `h`. -/
def leftBaseMin (xs : List ℚ) (h : ℚ) : ℕ → ℚ → ℚ
  | 0, cur => if xs.getD 0 0 ≤ h then min cur (xs.getD 0 0) else cur
  | i + 1, cur =>
    if xs.getD (i + 1) 0 ≤ h then leftBaseMin xs h i (min cur (xs.getD (i + 1) 0)) else cur

/-- Right walk of `_peak_prominences` (bounded by `imax`); `fuel`
dominates `imax + 1 - i`. -/
def rightBaseMin (xs : List ℚ) (h : ℚ) (imax : ℕ) : ℕ → ℕ → ℚ → ℚ
  | 0, _, cur => cur
  | fuel + 1, i, cur =>
    if i ≤ imax ∧ xs.getD i 0 ≤ h then
      rightBaseMin xs h imax fuel (i + 1) (min cur (xs.getD i 0))
    else cur

/-- Prominence of the peak at index `p`. -/
def prominence (xs : List ℚ) (p : ℕ) : ℚ :=
  xs.getD p 0 -
    max (leftBaseMin xs (xs.getD p 0) p (xs.getD p 0))
      (rightBaseMin xs (xs.getD p 0) (xs.length - 1) (xs.length + 1) p (xs.getD p 0))

/-- `scipy.signal.find_peaks(x, prominence=pmin)`: detected local maxima
whose prominence reaches the threshold. -/
def findPeaksProm (xs : List ℚ) (pmin : ℚ) : List ℕ :=
  (localMaxima xs).filter (fun p => decide (pmin ≤ prominence xs p))

/-- `np.argmin` (first index attaining the minimum): the running state is
the best value, its index, and the index of the list head. -/
def argminGo (best : ℚ) (bi ci : ℕ) : List ℚ → ℕ
  | [] => bi
  | h :: t => if h < best then argminGo h ci (ci + 1) t else argminGo best bi (ci + 1) t

/-- `np.argmin` of a list (`0` on the empty list, which numpy rejects). -/
def argminL : List ℚ → ℕ
  | [] => 0
  | h :: t => argminGo h 0 1 t

/-- One row of the peak-by-peak comparison (lines 982-991). -/
structure PeakPair where
  freq_original : ℚ
  freq_reconstructed : ℚ
  freq_error : ℚ
  freq_error_pct : ℚ
  mag_original : ℚ
  mag_reconstructed : ℚ
  mag_error : ℚ
  mag_error_pct : ℚ
deriving DecidableEq

/-- The body of the matching loop (lines 969-991) for one detected
original peak `p`: nearest reconstructed peak by absolute frequency
distance, matched only when strictly inside the tolerance. -/
def mkPeakPair (freq magO magR : List ℚ) (tol : ℚ) (peaksR : List ℕ) (p : ℕ) :
    Option PeakPair :=
  if peaksR = [] then none
  else
    let ds := peaksR.map (fun q => |freq.getD q 0 - freq.getD p 0|)
    if ds.getD (argminL ds) 0 < tol then
      some { freq_original := freq.getD p 0
             freq_reconstructed := freq.getD (peaksR.getD (argminL ds) 0) 0
             freq_error := freq.getD (peaksR.getD (argminL ds) 0) 0 - freq.getD p 0
             freq_error_pct :=
               if freq.getD p 0 ≠ 0 then
                 100 * (freq.getD (peaksR.getD (argminL ds) 0) 0 - freq.getD p 0) /
                   freq.getD p 0
               else 0
             mag_original := magO.getD p 0
             mag_reconstructed := magR.getD (peaksR.getD (argminL ds) 0) 0
             mag_error := magR.getD (peaksR.getD (argminL ds) 0) 0 - magO.getD p 0
             mag_error_pct :=
               if magO.getD p 0 ≠ 0 then
                 100 * (magR.getD (peaksR.getD (argminL ds) 0) 0 - magO.getD p 0) /
                   magO.getD p 0
               else 0 }
    else none

/-- Peak analysis (lines 961-996): prominence threshold derived once from
the first signal, tolerance `0.05 * (freq[-1] - freq[0])`, matched pairs,
and the three peak counts. -/
def peakSection (freq magO magR : List ℚ) : List PeakPair × ℕ × ℕ :=
  ((findPeaksProm magO ((1 / 10 : ℚ) * npMax magO)).filterMap
      (mkPeakPair freq magO magR ((1 / 20 : ℚ) * (freq.getLastD 0 - freq.headD 0))
        (findPeaksProm magR ((1 / 10 : ℚ) * npMax magO))),
    (findPeaksProm magO ((1 / 10 : ℚ) * npMax magO)).length,
    (findPeaksProm magR ((1 / 10 : ℚ) * npMax magO)).length)

/-- The ValidationReport: the `results` dict of `_compute_all_metrics`. -/
structure Report where
  RMSE : ℚ
  R2 : ℚ
  MAE : ℚ
  FRAC : Option ℚ
  peak_analysis : List PeakPair
  n_peaks_original : ℕ
  n_peaks_reconstructed : ℕ
  n_peaks_matched : ℕ
deriving DecidableEq

/-- `np.abs` of one complex sample, with the square root abstracted. -/
def cAbs (sq : ℚ → ℚ) (z : ℚ × ℚ) : ℚ := sq (z.1 ^ 2 + z.2 ^ 2)

/-- Real part of `np.vdot a b` (conjugate-linear in `a`). -/
def vdotRe (a b : List (ℚ × ℚ)) : ℚ :=
  (List.zipWith (fun x y => x.1 * y.1 + x.2 * y.2) a b).sum

/-- Imaginary part of `np.vdot a b`. -/
def vdotIm (a b : List (ℚ × ℚ)) : ℚ :=
  (List.zipWith (fun x y => x.1 * y.2 - x.2 * y.1) a b).sum

/-- `_compute_all_metrics`.  The two `np` reductions of lines 962 and 966
raise on empty inputs, hence the two error branches. -/
def computeAllMetrics (sq : ℚ → ℚ) (freq : List ℚ) (yO yR : List (ℚ × ℚ)) :
    Except String Report :=
  if (yO.map (cAbs sq)).isEmpty then
    .error "ValueError: zero-size array to reduction operation"
  else if freq.isEmpty then .error "IndexError: index -1 is out of bounds"
  else
    .ok { RMSE := sq (mean ((List.zipWith (fun a b => a - b) (yO.map (cAbs sq))
            (yR.map (cAbs sq))).map (fun e => e ^ 2)))
          R2 := r2_score (yO.map (cAbs sq)) (yR.map (cAbs sq))
          MAE := mean ((List.zipWith (fun a b => a - b) (yO.map (cAbs sq))
            (yR.map (cAbs sq))).map (fun e => |e|))
          FRAC :=
            if 0 < vdotRe yO yO ∧ 0 < vdotRe yR yR then
              some ((sq (vdotRe yO yR ^ 2 + vdotIm yO yR ^ 2)) ^ 2 /
                (vdotRe yO yO * vdotRe yR yR))
            else none
          peak_analysis := (peakSection freq (yO.map (cAbs sq)) (yR.map (cAbs sq))).1
          n_peaks_original := (peakSection freq (yO.map (cAbs sq)) (yR.map (cAbs sq))).2.1
          n_peaks_reconstructed :=
            (peakSection freq (yO.map (cAbs sq)) (yR.map (cAbs sq))).2.2
          n_peaks_matched :=
            (peakSection freq (yO.map (cAbs sq)) (yR.map (cAbs sq))).1.length }

/-- The reconstructed response as held by a record: a 1-D or a 2-D numpy
array (`ndim` is intrinsic to the array). -/
inductive NPData where
  | d1 (ys : List ℚ)
  | d2 (rows : List (List ℚ))
deriving DecidableEq

/-- Lines 892-895: a 2-D reconstructed response contributes only its
first column; a 1-D one is used as is. -/
def reconAmplitude : NPData → List ℚ
  | .d1 ys => ys
  | .d2 rows => rows.map (fun row => row.getD 0 0)

/-- `calculate_validation_metrics` (lines 856-914), from the selected
records onward: extract the reconstructed amplitude, interpolate the
testlab signal onto the reconstructed grid, lift the amplitude to a
complex signal with imaginary part exactly zero, and hand
`(x_recon, y_recon_complex, y_testlab_interp)` to the engine. -/
def calcValidationMetrics (sq : ℚ → ℚ) (xTest : List ℚ) (yTest : List (ℚ × ℚ))
    (xRecon : List ℚ) (dRecon : NPData) : Except String Report :=
  computeAllMetrics sq xRecon
    ((reconAmplitude dRecon).map (fun a => (a, (0 : ℚ))))
    (alignComplex xTest yTest xRecon)

/-! ## Claim C10: only the first reconstructed column matters -/

/-- C10.  The metrics computation uses only the first column of a 2-D
reconstructed response and gives it imaginary part exactly zero: two
reconstructed records that differ only in their second column (identical
frequency axes, first columns and reference record) produce identical
ValidationReports in every field. -/
theorem C10_second_column_irrelevant (sq : ℚ → ℚ) (xT : List ℚ) (yT : List (ℚ × ℚ))
    (xR : List ℚ) (rows rows2 : List (List ℚ))
    (hcol : rows.map (fun row => row.getD 0 0) = rows2.map (fun row => row.getD 0 0)) :
    calcValidationMetrics sq xT yT xR (.d2 rows) =
      calcValidationMetrics sq xT yT xR (.d2 rows2) := by
  unfold calcValidationMetrics
  simp only [reconAmplitude]
  rw [hcol]

/-! ## Claim C4: the R² metric -/

/-- Each summand of a sum of squares being zero pins every element to the
centre. -/
theorem sum_sq_eq_zero {l : List ℚ} {c : ℚ}
    (h : (l.map (fun x => (x - c) ^ 2)).sum = 0) : ∀ x ∈ l, x = c := by
  induction l with
  | nil => intro x hx; cases hx
  | cons y t ih =>
    rw [List.map_cons, List.sum_cons] at h
    have ht0 : 0 ≤ (t.map (fun x => (x - c) ^ 2)).sum := by
      apply List.sum_nonneg
      intro x hx
      rw [List.mem_map] at hx
      obtain ⟨z, _, rfl⟩ := hx
      exact sq_nonneg _
    have hy0 : 0 ≤ (y - c) ^ 2 := sq_nonneg _
    have hy : (y - c) ^ 2 = 0 := by linarith
    have ht : (t.map (fun x => (x - c) ^ 2)).sum = 0 := by linarith
    intro x hx
    rcases List.mem_cons.mp hx with rfl | hxt
    · have := pow_eq_zero_iff (two_ne_zero) |>.mp hy
      linarith
    · exact ih ht x hxt

/-- C4, amended.  For a non-constant reference magnitude the engine's R²
equals the standard coefficient of determination `1 - SSres/SStot` with a
nonzero denominator; for a constant reference the code does *not* report
"unavailable" but sklearn's numeric fallback (`1` when the residual is
zero, else `0`). -/
theorem C4_r2 (yt yp : List ℚ) (a b : ℚ) (ha : a ∈ yt) (hb : b ∈ yt) (hab : a ≠ b) :
    ssTot yt ≠ 0 ∧ r2_score yt yp = 1 - ssRes yt yp / ssTot yt := by
  have hss : ssTot yt ≠ 0 := by
    intro h0
    have hall := sum_sq_eq_zero h0
    exact hab ((hall a ha).trans (hall b hb).symm)
  exact ⟨hss, by rw [r2_score, if_neg hss]⟩

/-- Header decoded from the characteristic line `"2 2 0"`. -/
def hdrC8 : HeaderInfo := ⟨2, 2, 0, 0, 1⟩

/-- Concrete file for C8: two points expected, but only one payload row
(two values) before the terminating sentinel. -/
def exC8 : List String :=
  ["-1", "58", "meta0", "2 2 0", "a1", "a2", "a3", "a4", "1.0E0 2.0E0", "-1"]

/-- Concrete file for C9: one point expected, one payload row carrying
four values (the trailing two must be truncated). -/
def exC9 : List String :=
  ["-1", "58", "m0", "2 1 0", "b1", "b2", "b3", "b4", "1.0E0 2.0E0 3.0E0 4.0E0"]

/-- The record parsed from `exC9`. -/
def recC9 : PRecord := ⟨58, [0], [[1, 2]], 2, 1⟩

/-! ## Claim C7: peak matching -/

theorem getD_append_left (l1 l2 : List ℚ) (n : ℕ) (h : n < l1.length) :
    (l1 ++ l2).getD n 0 = l1.getD n 0 := by
  rw [List.getD_eq_getElem?_getD, List.getD_eq_getElem?_getD, List.getElem?_append,
    if_pos h]

theorem argminGo_spec : ∀ (t pre : List ℚ) (best : ℚ) (bi : ℕ),
    bi < pre.length → pre.getD bi 0 = best → (∀ y ∈ pre, best ≤ y) →
    argminGo best bi pre.length t < (pre ++ t).length ∧
      (pre ++ t).getD (argminGo best bi pre.length t) 0 = t.foldl min best
  | [], pre, best, bi, hbi, hbest, hmin => by
    rw [argminGo, List.append_nil, List.foldl_nil]
    exact ⟨hbi, hbest⟩
  | h :: t', pre, best, bi, hbi, hbest, hmin => by
    rw [argminGo]
    have hlist : pre ++ h :: t' = (pre ++ [h]) ++ t' := by simp
    have hci : pre.length + 1 = (pre ++ [h]).length := by simp
    by_cases hcase : h < best
    · rw [if_pos hcase]
      have hbest2 : (pre ++ [h]).getD pre.length 0 = h := by
        rw [List.getD_eq_getElem?_getD, List.getElem?_append_right (le_refl _)]
        simp
      have hmin2 : ∀ y ∈ pre ++ [h], h ≤ y := by
        intro y hy
        rcases List.mem_append.mp hy with hy | hy
        · exact le_trans (le_of_lt hcase) (hmin y hy)
        · rcases List.mem_singleton.mp hy with rfl
          exact le_refl y
      have ih := argminGo_spec t' (pre ++ [h]) h pre.length (by simp) hbest2 hmin2
      rw [hlist, List.foldl_cons, min_eq_right (le_of_lt hcase), hci]
      exact ih
    · rw [if_neg hcase]
      have hbest2 : (pre ++ [h]).getD bi 0 = best := by
        rw [getD_append_left _ _ _ hbi]
        exact hbest
      have hmin2 : ∀ y ∈ pre ++ [h], best ≤ y := by
        intro y hy
        rcases List.mem_append.mp hy with hy | hy
        · exact hmin y hy
        · rcases List.mem_singleton.mp hy with rfl
          exact not_lt.mp hcase
      have ih := argminGo_spec t' (pre ++ [h]) best bi (by simp; omega) hbest2 hmin2
      rw [hlist, List.foldl_cons, min_eq_left (not_lt.mp hcase), hci]
      exact ih

/-- `np.argmin` returns an in-range index attaining the minimum. -/
theorem argminL_spec (ds : List ℚ) (hne : ds ≠ []) :
    argminL ds < ds.length ∧ ds.getD (argminL ds) 0 = npMin ds := by
  cases ds with
  | nil => exact absurd rfl hne
  | cons h t =>
    have hspec := argminGo_spec t [h] h 0 (by simp) (by simp) (by simp)
    simpa [argminL, npMin] using hspec

/-- C7, amended.  With the prominence threshold taken once from the first
signal, the peak-matching tolerance is `0.05 * (freq[-1] - freq[0])` — for
a non-decreasing frequency axis this equals the claimed
`0.05 * (max freq - min freq)` — and then: the matched-pair list is
exactly the detected first-signal peaks filtered through the
nearest-below-tolerance match (so a pair is recorded exactly when the
nearest detected second-signal peak lies strictly inside the tolerance),
each first-signal peak contributes at most one pair, the two detected-peak
counts are the lengths of the detected-peak lists regardless of matching,
and the selected match attains the minimum absolute distance. -/
theorem C7_peak_matching (freq magO magR : List ℚ) (hne : freq ≠ [])
    (hmono : List.Chain' (· ≤ ·) freq) :
    (1 / 20 : ℚ) * (freq.getLastD 0 - freq.headD 0) =
        (1 / 20 : ℚ) * (npMax freq - npMin freq) ∧
      (peakSection freq magO magR).2.1 =
          (findPeaksProm magO ((1 / 10 : ℚ) * npMax magO)).length ∧
      (peakSection freq magO magR).2.2 =
          (findPeaksProm magR ((1 / 10 : ℚ) * npMax magO)).length ∧
      (peakSection freq magO magR).1 =
          (findPeaksProm magO ((1 / 10 : ℚ) * npMax magO)).filterMap
            (mkPeakPair freq magO magR ((1 / 20 : ℚ) * (npMax freq - npMin freq))
              (findPeaksProm magR ((1 / 10 : ℚ) * npMax magO))) ∧
      (peakSection freq magO magR).1.length ≤ (peakSection freq magO magR).2.1 ∧
      ∀ ds : List ℚ, ds ≠ [] →
        argminL ds < ds.length ∧ ds.getD (argminL ds) 0 = npMin ds := by
  have htol : (1 / 20 : ℚ) * (freq.getLastD 0 - freq.headD 0) =
      (1 / 20 : ℚ) * (npMax freq - npMin freq) := by
    rw [npMax_eq_getLastD freq hne hmono, npMin_eq_headD freq hne hmono]
  refine ⟨htol, rfl, rfl, ?_, ?_, fun ds hd => argminL_spec ds hd⟩
  · simp only [peakSection]
    rw [htol]
  · simp only [peakSection]
    exact List.length_filterMap_le _ _

/-! ## Claim C5: the derived amplitude record -/

/-- A testlab record as handled by `save_selected_record` (a pyuff
dataset-58 dict; only the fields the transformation touches or copies are
modelled). -/
structure TRecord where
  type : ℤ
  x : List ℚ
  data : NPData
  data_type : ℤ
  z_def_type : ℤ
  num_values_per_point : ℤ
  ylabel : String
deriving DecidableEq

/-- The record transformation of `save_selected_record` (lines 668-693)
for a type-58 record: when the response is a 2-D array of at least two
columns (the column count is the length of the first row; numpy arrays
are rectangular), a copy is built whose data is an `(n, 2)` array with
the linear magnitude in column 0 and zeros in column 1, with
`data_type = 2`, `z_def_type = 0`, `num_values_per_point = 2` and
`ylabel = "AMPLITUDE"`; otherwise the original record is written
unchanged. -/
def derive_amplitude_record (sq : ℚ → ℚ) (r : TRecord) : TRecord :=
  if r.type = 58 then
    match r.data with
    | .d2 rows =>
      if 2 ≤ (rows.headD []).length then
        { r with
          data := .d2 (rows.map (fun row =>
            [sq ((row.getD 0 0) ^ 2 + (row.getD 1 0) ^ 2), 0]))
          data_type := 2
          z_def_type := 0
          num_values_per_point := 2
          ylabel := "AMPLITUDE" }
      else r
    | .d1 _ => r
  else r

/-- C5, amended.  For a type-58 record whose response is 2-D with at
least two columns, the derived record keeps the frequency axis, sets
`data_type = 2` and `ylabel = "AMPLITUDE"`, but its response is a
*two*-column table (magnitude, then a zero column) with
`num_values_per_point = 2` — not a single-column table; responses that
are 1-D or have fewer than two columns pass through unchanged. -/
theorem C5_derive (sq : ℚ → ℚ) (r : TRecord) (h58 : r.type = 58) :
    (∀ rows, r.data = .d2 rows → 2 ≤ (rows.headD []).length →
      derive_amplitude_record sq r =
        { r with
          data := .d2 (rows.map (fun row =>
            [sq ((row.getD 0 0) ^ 2 + (row.getD 1 0) ^ 2), 0]))
          data_type := 2
          z_def_type := 0
          num_values_per_point := 2
          ylabel := "AMPLITUDE" }) ∧
    (∀ rows, r.data = .d2 rows → (rows.headD []).length < 2 →
      derive_amplitude_record sq r = r) ∧
    (∀ ys, r.data = .d1 ys → derive_amplitude_record sq r = r) ∧
    (derive_amplitude_record sq r).x = r.x := by
  refine ⟨?_, ?_, ?_, ?_⟩
  · intro rows hrows hw
    unfold derive_amplitude_record
    rw [if_pos h58, hrows]
    dsimp only
    rw [if_pos hw]
  · intro rows hrows hw
    unfold derive_amplitude_record
    rw [if_pos h58, hrows]
    dsimp only
    rw [if_neg (by omega)]
  · intro ys hys
    unfold derive_amplitude_record
    rw [if_pos h58, hys]
  · unfold derive_amplitude_record
    rw [if_pos h58]
    cases hd : r.data with
    | d1 ys => rfl
    | d2 rows =>
      dsimp only
      split
      · rfl
      · rfl

/-- Concrete type-58 record with a two-column real/imaginary response. -/
def exC5 : TRecord := ⟨58, [0], .d2 [[3, 4]], 5, 1, 3, "ORIG"⟩

section RatEval

attribute [local semireducible] Rat.add Rat.mul Rat.sub Rat.inv

/-- C3, counterexample.  On `exC3` the payload scan starts at absolute
line 100 and a valid payload line sits at line 101 — inside the claimed
100-line window relative to the scan start — yet the parser fails,
because the bound `i > 100` is on the absolute line index. -/
theorem C3_counterexample :
    parseUNV exC3 = .error "Could not find data section in first 100 lines" ∧
      findDataStart exC3 100 = .error "Could not find data section in first 100 lines" ∧
      isDataLine (exC3.getD 101 "") = true ∧
      parseHeader exC3 = .ok (⟨2, 1, 0, 0, 1⟩, 100) := by
  refine ⟨?_, ?_, ?_, ?_⟩ <;> decide

/-- C8, witness: `exC8` collects two of the four required values and the
parser succeeds with a zero-padded second row. -/
theorem C8_zero_padding_witness :
    ∃ r, parseUNV exC8 = .ok r ∧
      r.data = chunk2 (collectValues exC8 8 (hdrC8.num_points * 2) (hdrC8.num_points * 3) ++
        List.replicate ((hdrC8.num_points * 2).toNat -
          (collectValues exC8 8 (hdrC8.num_points * 2) (hdrC8.num_points * 3)).length)
          (0 : ℚ)) ∧
      ∀ k, (collectValues exC8 8 (hdrC8.num_points * 2) (hdrC8.num_points * 3)).length ≤ k →
        (collectValues exC8 8 (hdrC8.num_points * 2) (hdrC8.num_points * 3) ++
          List.replicate ((hdrC8.num_points * 2).toNat -
            (collectValues exC8 8 (hdrC8.num_points * 2) (hdrC8.num_points * 3)).length)
            (0 : ℚ)).getD k 0 = 0 :=
  C8_zero_padding exC8 hdrC8 8 8 (by decide) (by decide) (by decide)

/-- C9, witness: the record parsed from `exC9` (with excess payload
tokens truncated) satisfies the shape invariant. -/
theorem C9_shape_invariant_witness :
    1 ≤ recC9.num_points ∧ (recC9.x.length : ℤ) = recC9.num_points ∧
      (recC9.data.length : ℤ) = recC9.num_points ∧ ∀ row ∈ recC9.data, row.length = 2 :=
  C9_shape_invariant exC9 recC9 (by decide)

/-- C4, counterexample.  With a constant reference magnitude `[1, 1]`
and a non-matching second signal, the engine's report carries the plain
number `0` in its R² field (sklearn's constant-reference fallback) —
there is no "unavailable" path for R², unlike FRAC — while the spec-side
R² is `none`. -/
theorem C4_counterexample :
    (computeAllMetrics (fun q => q) [0, 1] [(1, 0), (1, 0)] [(1, 0), (2, 0)]).map
        (fun r => r.R2) = .ok 0 ∧
      r2_spec ([(1, 0), (1, 0)].map (cAbs (fun q => q)))
        ([(1, 0), (2, 0)].map (cAbs (fun q => q))) = none := by
  refine ⟨?_, ?_⟩ <;> decide

/-- C4, witness at the non-constant reference `[1, 2]`. -/
theorem C4_r2_witness :
    ssTot [1, 2] ≠ 0 ∧ r2_score [1, 2] [3, 4] = 1 - ssRes [1, 2] [3, 4] / ssTot [1, 2] :=
  C4_r2 [1, 2] [3, 4] 1 2 (by decide) (by decide) (by decide)

/-- C5, counterexample.  On a two-column real/imaginary record the
derived record's response has rows of *two* entries (magnitude and a
zero) and `num_values_per_point = 2`, not the single-column layout the
claim describes. -/
theorem C5_counterexample :
    (derive_amplitude_record (fun q => q) exC5).data = .d2 [[25, 0]] ∧
      ((derive_amplitude_record (fun q => q) exC5).data ≠ .d2 [[25]]) ∧
      (derive_amplitude_record (fun q => q) exC5).num_values_per_point = 2 ∧
      (derive_amplitude_record (fun q => q) exC5).num_values_per_point ≠ 1 := by
  refine ⟨?_, ?_, ?_, ?_⟩ <;> decide

/-- C5, witness at the record `exC5`. -/
theorem C5_derive_witness :
    (∀ rows, exC5.data = .d2 rows → 2 ≤ (rows.headD []).length →
      derive_amplitude_record (fun q => q) exC5 =
        { exC5 with
          data := .d2 (rows.map (fun row =>
            [(fun q => q) ((row.getD 0 0) ^ 2 + (row.getD 1 0) ^ 2), 0]))
          data_type := 2
          z_def_type := 0
          num_values_per_point := 2
          ylabel := "AMPLITUDE" }) ∧
    (∀ rows, exC5.data = .d2 rows → (rows.headD []).length < 2 →
      derive_amplitude_record (fun q => q) exC5 = exC5) ∧
    (∀ ys, exC5.data = .d1 ys → derive_amplitude_record (fun q => q) exC5 = exC5) ∧
    (derive_amplitude_record (fun q => q) exC5).x = exC5.x :=
  C5_derive (fun q => q) exC5 (by decide)

/-- C7, counterexample.  On the *descending* axis `[10, 5, 0]` with
identical single-peak magnitudes, both signals have exactly one detected
peak, at the same frequency (distance `0`, strictly below
`0.05 * (max - min) = 0.5`), yet the code records no matched pair: its
tolerance `0.05 * (freq[-1] - freq[0])` is negative here. -/
theorem C7_counterexample :
    (peakSection [10, 5, 0] [0, 1, 0] [0, 1, 0]).1.length = 0 ∧
      (peakSection [10, 5, 0] [0, 1, 0] [0, 1, 0]).2.1 = 1 ∧
      (peakSection [10, 5, 0] [0, 1, 0] [0, 1, 0]).2.2 = 1 ∧
      findPeaksProm [0, 1, 0] ((1 / 10 : ℚ) * npMax [0, 1, 0]) = [1] ∧
      |([10, 5, 0] : List ℚ).getD 1 0 - ([10, 5, 0] : List ℚ).getD 1 0| <
        (1 / 20 : ℚ) * (npMax [10, 5, 0] - npMin [10, 5, 0]) := by
  refine ⟨?_, ?_, ?_, ?_, ?_⟩ <;> decide

/-- C7, witness on the ascending axis `[0, 1, 2]`. -/
theorem C7_peak_matching_witness :
    (1 / 20 : ℚ) * (([0, 1, 2] : List ℚ).getLastD 0 - ([0, 1, 2] : List ℚ).headD 0) =
        (1 / 20 : ℚ) * (npMax [0, 1, 2] - npMin [0, 1, 2]) ∧
      (peakSection [0, 1, 2] [0, 1, 0] [0, 1, 0]).2.1 =
          (findPeaksProm [0, 1, 0] ((1 / 10 : ℚ) * npMax [0, 1, 0])).length ∧
      (peakSection [0, 1, 2] [0, 1, 0] [0, 1, 0]).2.2 =
          (findPeaksProm [0, 1, 0] ((1 / 10 : ℚ) * npMax [0, 1, 0])).length ∧
      (peakSection [0, 1, 2] [0, 1, 0] [0, 1, 0]).1 =
          (findPeaksProm [0, 1, 0] ((1 / 10 : ℚ) * npMax [0, 1, 0])).filterMap
            (mkPeakPair [0, 1, 2] [0, 1, 0] [0, 1, 0]
              ((1 / 20 : ℚ) * (npMax [0, 1, 2] - npMin [0, 1, 2]))
              (findPeaksProm [0, 1, 0] ((1 / 10 : ℚ) * npMax [0, 1, 0]))) ∧
      (peakSection [0, 1, 2] [0, 1, 0] [0, 1, 0]).1.length ≤
          (peakSection [0, 1, 2] [0, 1, 0] [0, 1, 0]).2.1 ∧
      ∀ ds : List ℚ, ds ≠ [] →
        argminL ds < ds.length ∧ ds.getD (argminL ds) 0 = npMin ds :=
  C7_peak_matching [0, 1, 2] [0, 1, 0] [0, 1, 0] (by decide)
    (by norm_num [List.chain'_cons])

/-- C10, witness: two one-row reconstructed responses differing only in
the second column give the same report. -/
theorem C10_witness :
    calcValidationMetrics (fun q => q) [0] [(1, 0)] [0] (.d2 [[1, 5]]) =
      calcValidationMetrics (fun q => q) [0] [(1, 0)] [0] (.d2 [[1, 7]]) :=
  C10_second_column_irrelevant (fun q => q) [0] [(1, 0)] [0] [[1, 5]] [[1, 7]] (by decide)

end RatEval

end EMAV
